import Mathlib

/-!
Shallow embedding of `src/main.py` of py-file-tree-diff-analyzer, together
with theorems settling the specification claims about it.

Modelling conventions:
* Python `str` values are Lean `String`s / `List Char`; slicing by code
  points matches Lean's `List.take` / `List.drop` on `toList`.
* Python `float` arithmetic is modelled as exact rational arithmetic,
  represented by integer numerator/denominator pairs; the decimal literals
  appearing in snapshot size fields are short enough that double rounding
  never changes the truncated byte counts the claims speak about.
* A Python exception that escapes an expression is modelled by
  `Except.error`; `re` regex whitespace `\s` and `str.strip` whitespace are
  modelled by the ASCII whitespace characters.
* File I/O is modelled by a map from path to `Except String (List String)`
  (the lines of the file, without trailing newlines, or an I/O error).
-/

namespace FileTreeDiff

/-- ASCII whitespace, modelling Python's notion of whitespace in `\s`,
`str.strip`, `str.rstrip`. -/
def isPyWs (c : Char) : Bool :=
  c = ' ' || c = '\t' || c = '\n' || c = '\r' || c = '\x0b' || c = '\x0c'

/-- The character class `[\d.]` of the size regex. -/
def digitOrDot (c : Char) : Bool := c.isDigit || c = '.'

/-- The five size units accepted by `parse_size_to_bytes`. -/
inductive SizeUnit where
  | B | KB | MB | GB | TB
deriving DecidableEq, Repr

/-- The `multipliers` dictionary of `parse_size_to_bytes`. -/
def unitMult : SizeUnit → ℕ
  | .B => 1
  | .KB => 1024
  | .MB => 1024 ^ 2
  | .GB => 1024 ^ 3
  | .TB => 1024 ^ 4

/-- Matching the alternation `(B|KB|MB|GB|TB)` at the head of the input,
alternatives tried left to right as Python's `re` does. -/
def unitAt : List Char → Option SizeUnit
  | 'B' :: _ => some .B
  | 'K' :: 'B' :: _ => some .KB
  | 'M' :: 'B' :: _ => some .MB
  | 'G' :: 'B' :: _ => some .GB
  | 'T' :: 'B' :: _ => some .TB
  | _ => none

/-- Model of `re.search(r'([\d.]+)\s*(B|KB|MB|GB|TB)', s)`: scan positions left to
right; at a position whose character is in `[\d.]`, the greedy group 1 is
the maximal `[\d.]` run from there, `\s*` then eats the maximal whitespace
run, and the unit alternation must match right after.  (Backtracking into
the greedy runs can never produce a match the maximal runs miss, because a
shorter group 1 leaves a digit-or-dot character where a unit letter is
required, and a shorter `\s*` leaves a whitespace character there.)
Returns group 1 and the decoded group 2 of the leftmost match. -/
def reSearch : List Char → Option (List Char × SizeUnit)
  | [] => none
  | c :: cs =>
    if digitOrDot c then
      match unitAt (((c :: cs).dropWhile digitOrDot).dropWhile isPyWs) with
      | some u => some ((c :: cs).takeWhile digitOrDot, u)
      | none => reSearch cs
    else reSearch cs

/-- Value of a digit string, most significant digit first. -/
def digitsVal (cs : List Char) : ℕ :=
  cs.foldl (fun a c => 10 * a + (c.toNat - '0'.toNat)) 0

/-- Python `float()` applied to a nonempty string of digits and dots:
succeeds iff the string has at most one dot and at least one digit
(`float('.')` and `float('1.2.3')` raise `ValueError`), and then denotes
integer part plus fractional part.  The exact value is returned as a
mantissa/scale pair: the decimal denotes `mantissa / scale`.  See the
header note on floats. -/
def parseDecimal (cs : List Char) : Option (ℕ × ℕ) :=
  if cs.count '.' ≤ 1 ∧ cs.any Char.isDigit then
    let ip := cs.takeWhile (fun c => c ≠ '.')
    let fp := (cs.dropWhile (fun c => c ≠ '.')).drop 1
    some (digitsVal (ip ++ fp), 10 ^ fp.length)
  else
    none

/-- Embedding of `parse_size_to_bytes` of `src/main.py`: regex search for a number
followed by a unit, `float` conversion, multiplication by the unit
multiplier, truncation to `int` (natural division by the decimal scale
truncates `mantissa * multiplier / scale` exactly as `int()` truncates the
nonnegative product).  `Except.error` models the `ValueError` that
`float` raises when group 1 is a run of dots such as `"."`. -/
def parse_size_to_bytes (size_str : String) : Except String ℤ :=
  match reSearch size_str.toList with
  | none => .ok 0
  | some (run, u) =>
    match parseDecimal run with
    | none => .error "ValueError: could not convert string to float"
    | some (mant, scale) => .ok ((mant * unitMult u) / scale : ℕ)

/-- Modelled from the spec: the number syntax `<digits>[.<digits>]` of the
size-decoding sentence — one or more digits, optionally followed by a dot
and one or more digits (greedily).  Returns the decimal's mantissa/scale
pair and the remainder of the input.  `none` if the input does not start
with a digit. -/
def claimNumAt (cs : List Char) : Option ((ℕ × ℕ) × List Char) :=
  let d1 := cs.takeWhile Char.isDigit
  let r1 := cs.dropWhile Char.isDigit
  if d1 = [] then none
  else
    match r1 with
    | '.' :: r2 =>
      let d2 := r2.takeWhile Char.isDigit
      if d2 = [] then some ((digitsVal d1, 1), r1)
      else some ((digitsVal (d1 ++ d2), 10 ^ d2.length), r2.dropWhile Char.isDigit)
    | _ => some ((digitsVal d1, 1), r1)

/-- Modelled from the spec: scan for the first (leftmost) run of the form
`<digits>[.<digits>]` that is immediately followed — with nothing in
between — by one of the unit tokens. -/
def claimSearch : List Char → Option ((ℕ × ℕ) × SizeUnit)
  | [] => none
  | c :: cs =>
    if c.isDigit then
      match claimNumAt (c :: cs) with
      | some (v, rest) =>
        match unitAt rest with
        | some u => some (v, u)
        | none => claimSearch cs
      | none => claimSearch cs
    else claimSearch cs

/-- Modelled from the spec: size decoding exactly as claim C2 words it —
first `<digits>[.<digits>]` run immediately followed by a unit token,
multiplied by the unit multiplier and truncated; 0 when no such pattern
exists. -/
def specSizeDecodeClaim (s : String) : ℤ :=
  match claimSearch s.toList with
  | none => 0
  | some ((mant, scale), u) => ((mant * unitMult u) / scale : ℕ)

/-- Declarative reformulation of the code's size search: `matchPos cs i`
decides whether the regex `([\d.]+)\s*(B|KB|MB|GB|TB)` matches at start
position `i` of `cs`, and returns group 1 and group 2 if so. -/
def matchPos (cs : List Char) (i : ℕ) : Option (List Char × SizeUnit) :=
  match cs.drop i with
  | [] => none
  | c :: rest =>
    if digitOrDot c then
      match unitAt (((c :: rest).dropWhile digitOrDot).dropWhile isPyWs) with
      | some u => some ((c :: rest).takeWhile digitOrDot, u)
      | none => none
    else none

/-- The leftmost position at which the size regex matches, expressed as a
first-match search over all start positions. -/
def amendedSearch (cs : List Char) : Option (List Char × SizeUnit) :=
  (List.range cs.length).findSome? (matchPos cs)

/-- Amended specification of size decoding: the unit token may be
separated from the number by whitespace, the number is the maximal run of
digit-and-dot characters, and a run that is not a valid decimal (no digit,
or more than one dot) raises an error. -/
def specSizeDecodeAmended (s : String) : Except String ℤ :=
  match amendedSearch s.toList with
  | none => .ok 0
  | some (run, u) =>
    match parseDecimal run with
    | none => .error "ValueError: could not convert string to float"
    | some (mant, scale) => .ok ((mant * unitMult u) / scale : ℕ)

theorem findSome?_map_succ {α : Type} (f : ℕ → Option α) (l : List ℕ) :
    (l.map Nat.succ).findSome? f = l.findSome? (fun i => f (Nat.succ i)) := by
  induction l with
  | nil => rfl
  | cons a l ih =>
    simp only [List.map_cons, List.findSome?_cons]
    cases f (Nat.succ a) <;> simp [ih]

theorem reSearch_eq_amendedSearch (cs : List Char) :
    reSearch cs = amendedSearch cs := by
  induction cs with
  | nil => rfl
  | cons c cs ih =>
    have hrange : List.range (cs.length + 1) = 0 :: (List.range cs.length).map Nat.succ :=
      List.range_succ_eq_map cs.length
    have htail : amendedSearch (c :: cs) =
        match matchPos (c :: cs) 0 with
        | some r => some r
        | none => amendedSearch cs := by
      unfold amendedSearch
      rw [List.length_cons, hrange, List.findSome?_cons, findSome?_map_succ]
      have : (fun i => matchPos (c :: cs) (Nat.succ i)) = matchPos cs := by
        funext i
        simp [matchPos, List.drop_succ_cons]
      rw [this]
      cases matchPos (c :: cs) 0 <;> rfl
    rw [htail]
    show reSearch (c :: cs) = _
    unfold reSearch matchPos
    simp only [List.drop_zero]
    by_cases hc : digitOrDot c
    · simp only [hc, if_pos]
      cases unitAt (((c :: cs).dropWhile digitOrDot).dropWhile isPyWs) <;> simp [ih]
    · simp [hc, ih]

/-- Python `str.rstrip()`: drop trailing whitespace. -/
def pyRstrip (cs : List Char) : List Char :=
  (cs.reverse.dropWhile isPyWs).reverse

/-- Python `str.strip()`: drop leading and trailing whitespace. -/
def pyStrip (cs : List Char) : List Char :=
  pyRstrip (cs.dropWhile isPyWs)

/-- Python `str.replace(pat, rep)` specialised to the 4-character patterns
of `load_snapshot`: scan left to right; where the next four characters are
`w x y z`, emit `rep` and continue after them; otherwise emit one
character and continue. -/
def replace4 (w x y z : Char) (rep : List Char) : List Char → List Char
  | a :: b :: c :: d :: rest =>
    if a = w ∧ b = x ∧ c = y ∧ d = z then rep ++ replace4 w x y z rep rest
    else a :: replace4 w x y z rep (b :: c :: d :: rest)
  | other => other

/-- Four spaces, the replacement used for depth decoding. -/
def sp4 : List Char := [' ', ' ', ' ', ' ']

/-- The three replacements of the depth computation of `load_snapshot`,
in program order: `'├── ' → '    '`, then `'└── ' → '    '`, then
`'│   ' → '    '`. -/
def indentContent (tp : List Char) : List Char :=
  replace4 '│' ' ' ' ' ' ' sp4
    (replace4 '└' '─' '─' ' ' sp4
      (replace4 '├' '─' '─' ' ' sp4 tp))

/-- Count of leading space characters: `len(s) - len(s.lstrip(' '))`. -/
def leadingSpaces (cs : List Char) : ℕ :=
  (cs.takeWhile (fun c => c = ' ')).length

/-- The `indent_count` of `load_snapshot`: leading spaces of the replaced
tree field, integer-divided by 4. -/
def indent_count (tp : List Char) : ℕ :=
  leadingSpaces (indentContent tp) / 4

/-- The name computation of `load_snapshot`: strip every occurrence of the
three glyph sequences (replacement by the empty string), then
`str.strip()`. -/
def nameChars (tp : List Char) : List Char :=
  pyStrip
    (replace4 '│' ' ' ' ' ' ' []
      (replace4 '└' '─' '─' ' ' []
        (replace4 '├' '─' '─' ' ' [] tp)))

/-- A snapshot: the `{full path: size in bytes}` dictionary. -/
abbrev Snap := List (String × ℤ)

/-- Python dict assignment `d[k] = v`: overwrite in place if the key is
present, append otherwise. -/
def insertAL : Snap → String → ℤ → Snap
  | [], k, v => [(k, v)]
  | (k', v') :: t, k, v =>
    if k' = k then (k, v) :: t else (k', v') :: insertAL t k v

/-- Python dict lookup on the association list. -/
def lookupAL : Snap → String → Option ℤ
  | [], _ => none
  | (k', v') :: t, k => if k' = k then some v' else lookupAL t k

/-- One iteration of the line loop of `load_snapshot` on a retained
non-blank line: split the line at character 12, decode size, depth and
name, truncate the path stack with `path_stack[:indent_count]`, append the
name, and record the joined full path.  The `ValueError` that size
decoding can raise aborts the whole load. -/
def processLine (st : List String × Snap) (line : String) :
    Except String (List String × Snap) :=
  let tp := pyRstrip (line.toList.drop 12)
  match parse_size_to_bytes (String.mk (line.toList.take 12)) with
  | .error e => .error e
  | .ok sz =>
    let stack' := st.1.take (indent_count tp) ++ [String.mk (nameChars tp)]
    .ok (stack', insertAL st.2 (String.intercalate "/" stack') sz)

/-- The line loop of `load_snapshot`: blank lines (after `strip()`) are
skipped; other lines are processed in order. -/
def loadLines : List String → List String × Snap → Except String Snap
  | [], st => .ok st.2
  | l :: ls, st =>
    if pyStrip l.toList = [] then loadLines ls st
    else
      match processLine st l with
      | .error e => .error e
      | .ok st' => loadLines ls st'

/-- Embedding of `load_snapshot` of `src/main.py`, applied to the decoded lines of the
file (trailing newlines already removed, which changes neither the blank
test, the size field's regex search, nor the rstripped tree field): skip
the two header lines, then run the line loop with an empty stack and an
empty snapshot. -/
def load_snapshot (lines : List String) : Except String Snap :=
  loadLines (lines.drop 2) ([], [])

/-- The three ordered change-record lists produced by the diff engine. -/
structure DiffResult where
  added : List (String × ℤ)
  removed : List (String × ℤ)
  changed : List (String × ℤ × ℤ)
deriving DecidableEq, Repr

/-- Lexicographic comparison of strings by code point, the ordering
Python's `<=` on `str` uses (a prefix precedes its extensions). -/
def strLeB : List Char → List Char → Bool
  | [], _ => true
  | _ :: _, [] => false
  | x :: xs, y :: ys =>
    if x.toNat < y.toNat then true
    else if y.toNat < x.toNat then false
    else strLeB xs ys

/-- Python's `<=` on full paths, as a proposition. -/
def pathLe (a b : String) : Prop := strLeB a.toList b.toList = true

instance : DecidableRel pathLe := fun _a _b => decEq _ _

/-- The keys of the union of the two snapshots' key sets, one occurrence
each (`set(old) | set(new)` of `main`). -/
def unionKeys (o n : Snap) : List String :=
  (o.map Prod.fst ++ n.map Prod.fst).dedup

/-- Model of `sorted(set(old_snap.keys()) | set(new_snap.keys()))` of `main`:
the union's keys in ascending lexicographic string order. -/
def sortedUnion (o n : Snap) : List String :=
  List.insertionSort pathLe (unionKeys o n)

/-- The classification loop of `main`: for each path in the given order,
append to `added` if absent from the old snapshot, to `removed` if absent
from the new one, and to `changed` (with delta `new - old` and current
size `new`) if present in both with differing sizes. -/
def diffRecords : List String → Snap → Snap → DiffResult
  | [], _, _ => ⟨[], [], []⟩
  | p :: ps, o, n =>
    let rest := diffRecords ps o n
    match lookupAL o p, lookupAL n p with
    | none, some sn => ⟨(p, sn) :: rest.added, rest.removed, rest.changed⟩
    | some so, none => ⟨rest.added, (p, so) :: rest.removed, rest.changed⟩
    | some so, some sn =>
      if sn - so ≠ 0 then ⟨rest.added, rest.removed, (p, sn - so, sn) :: rest.changed⟩
      else rest
    | none, none => rest

/-- The diff engine of `main`: classification over the sorted union. -/
def computeDiff (o n : Snap) : DiffResult :=
  diffRecords (sortedUnion o n) o n

/-- The `units` list of `format_bytes`. -/
def unitNames : List String := ["B", "KB", "MB", "GB", "TB"]

/-- Fuel-indexed form of the unit loop of `format_bytes`; the fuel is
`4 - i`, which bounds the remaining iterations since the guard requires
`i < 4` and each iteration increments `i`. -/
def divLoopAux : ℕ → ℤ → ℕ → ℕ
  | 0, _, i => i
  | f + 1, n, i =>
    if 1024 ^ (i + 1) ≤ n ∧ i < 4 then divLoopAux f n (i + 1) else i

/-- The `while size_bytes >= 1024 and i < len(units)-1` loop of
`format_bytes`, with the running float value `size_bytes / 1024**i`
tracked exactly: the loop guard `size_bytes >= 1024` at step `i` is
`n / 1024^i ≥ 1024`, i.e. `n ≥ 1024^(i+1)`.  Returns the final `i`;
when the fuel `4 - i` is zero the guard `i < 4` is false as well, so the
fuel never cuts the loop short. -/
def divLoop (n : ℤ) (i : ℕ) : ℕ := divLoopAux (4 - i) n i

/-- Round half to even of the fraction `a / b` (`b > 0`): the rounding
Python's `format` applies for `.1f`. -/
def rheFrac (a b : ℤ) : ℤ :=
  let q := a.fdiv b
  let r := a.fmod b
  if 2 * r < b then q
  else if b < 2 * r then q + 1
  else if q % 2 = 0 then q else q + 1

/-- Python `f"{x:+.1f}"` for the exact value `x = n / d` (`d > 0`): a
mandatory sign (taken from the sign of the value), then the magnitude of
the value rounded half-even to one decimal place. -/
def signedOneDecimal (n d : ℤ) : String :=
  let sign := if n < 0 then "-" else "+"
  let m := (rheFrac (10 * n) d).natAbs
  sign ++ toString (m / 10) ++ "." ++ toString (m % 10)

/-- Embedding of `format_bytes` of `src/main.py`: `0` formats as `"0 B"`; otherwise the
value is repeatedly divided by 1024 while at least 1024 and a smaller unit
remains, then formatted with `f"{size_bytes:+.1f} {units[i]}"`. -/
def format_bytes (size_bytes : ℤ) : String :=
  if size_bytes = 0 then "0 B"
  else
    let i := divLoop size_bytes 0
    signedOneDecimal size_bytes ((1024 : ℤ) ^ i) ++ " " ++ unitNames.getD i "B"

/-- Model of `pathlib.Path(p).stem`: the final path component without its final
suffix (the suffix is the part from the last dot on, when that dot is
neither the first nor the last character of the component). -/
def pyStem (p : String) : String :=
  let name := (p.toList.reverse.takeWhile (fun c => c ≠ '/')).reverse
  let tailLen := (name.reverse.takeWhile (fun c => c ≠ '.')).length
  if tailLen = name.length then String.mk name
  else
    let i := name.length - 1 - tailLen
    if 0 < i ∧ i < name.length - 1 then String.mk (name.take i)
    else String.mk name

/-- The report file name `f"diff_{stem(old)}_vs_{stem(new)}.txt"`. -/
def output_name (old_file new_file : String) : String :=
  "diff_" ++ pyStem old_file ++ "_vs_" ++ pyStem new_file ++ ".txt"

/-- String repetition, Python `c * k`. -/
def strRepeat (c : Char) (k : ℕ) : String := String.mk (List.replicate k c)

/-- Python `f"{s:>w}"`: left-pad with spaces to width `w`. -/
def padLeft (w : ℕ) (s : String) : String :=
  strRepeat ' ' (w - s.length) ++ s

/-- One line of the ADDED section of the report. -/
def addedLine (e : String × ℤ) : String :=
  "[+" ++ String.mk (pyStrip (format_bytes e.2).toList) ++ "]  " ++ e.1 ++ "\n"

/-- One line of the REMOVED section of the report. -/
def removedLine (e : String × ℤ) : String :=
  "[-" ++ String.mk (pyStrip (format_bytes e.2).toList) ++ "]  " ++ e.1 ++ "\n"

/-- One line of the SIZE CHANGED section of the report. -/
def changedLine (e : String × ℤ × ℤ) : String :=
  "[" ++ padLeft 10 (format_bytes e.2.1) ++ "] (Current: "
    ++ padLeft 8 (String.mk (pyStrip (format_bytes e.2.2).toList)) ++ ")  " ++ e.1 ++ "\n"

/-- The report text written by `main`. -/
def render_report (old_file new_file : String) (d : DiffResult) : String :=
  "📊 Comparison: " ++ old_file ++ " -> " ++ new_file ++ "\n"
    ++ strRepeat '=' 60 ++ "\n\n"
    ++ "🆕 ADDED (" ++ toString d.added.length ++ ")\n"
    ++ strRepeat '-' 30 ++ "\n"
    ++ String.join (d.added.map addedLine)
    ++ "\n🗑️ REMOVED (" ++ toString d.removed.length ++ ")\n"
    ++ strRepeat '-' 30 ++ "\n"
    ++ String.join (d.removed.map removedLine)
    ++ "\n🔄 SIZE CHANGED (" ++ toString d.changed.length ++ ")\n"
    ++ strRepeat '-' 30 ++ "\n"
    ++ String.join (d.changed.map changedLine)

/-- Observable outcome of one run of the program: the process exit code,
the lines printed to standard output, and the report file written to the
working directory (name and content), if any. -/
structure MainResult where
  exitCode : ℕ
  printed : List String
  report : Option (String × String)
deriving DecidableEq, Repr

/-- The error message printed by `load_snapshot`'s exception handler:
`f"エラー: ファイルの読み込みに失敗しました ({file_path}): {e}"`. -/
def error_message (file_path cause : String) : String :=
  "エラー: ファイルの読み込みに失敗しました (" ++ file_path ++ "): " ++ cause

/-- The `load_snapshot` call including its file access, over the file-system model:
opening and reading may fail with an I/O or decode error, and parsing may
raise; both are caught by the handler that reports and exits. -/
def load_from (fs : String → Except String (List String)) (p : String) :
    Except String Snap :=
  match fs p with
  | .error e => .error e
  | .ok lines => load_snapshot lines

/-- Embedding of `main` of `src/main.py` over the file-system model: load both
snapshots (a failure prints the error message and exits with status 1
before any output file is created), diff them, write the report, print
the two confirmation lines, and exit 0. -/
def main_run (fs : String → Except String (List String))
    (old_file new_file : String) : MainResult :=
  match load_from fs old_file with
  | .error e => ⟨1, [error_message old_file e], none⟩
  | .ok o =>
    match load_from fs new_file with
    | .error e => ⟨1, [error_message new_file e], none⟩
    | .ok n =>
      let d := computeDiff o n
      ⟨0, ["✨ 差分解析が完了しました！", "📄 出力結果: " ++ output_name old_file new_file],
        some (output_name old_file new_file, render_report old_file new_file d)⟩

theorem signedOneDecimal_head (n d : ℤ) :
    (signedOneDecimal n d).toList.head? = some (if n < 0 then '-' else '+') := by
  unfold signedOneDecimal
  by_cases h : n < 0 <;> simp [h, String.toList, String.append]

theorem string_head_append (a b : String) (c : Char)
    (h : a.toList.head? = some c) : (a ++ b).toList.head? = some c := by
  have habne : a.toList ≠ [] := by
    intro hnil
    rw [hnil] at h
    exact absurd h (by simp)
  have : (a ++ b).toList = a.toList ++ b.toList := rfl
  rw [this, List.head?_append_of_ne_nil _ habne]
  exact h

/-- Claim C2 (counterexample): on the 12-character size field
`".5KB        "` the code multiplies `0.5` (the maximal `[\d.]` run `.5`)
by 1024 and truncates to 512, whereas the procedure of the claim —
the first run of the form `<digits>[.<digits>]` immediately followed by a
unit token, which here is `5` followed by `KB` — yields 5120. -/
theorem size_decode_claim_counterexample :
    (".5KB        ").length = 12 ∧
    parse_size_to_bytes ".5KB        " = .ok 512 ∧
    specSizeDecodeClaim ".5KB        " = 5120 ∧
    parse_size_to_bytes ".5KB        " ≠ .ok (specSizeDecodeClaim ".5KB        ") := by
  refine ⟨rfl, rfl, rfl, ?_⟩
  intro h
  rw [show specSizeDecodeClaim ".5KB        " = 5120 from rfl] at h
  have h2 : (Except.ok 512 : Except String ℤ) = .ok 5120 :=
    Eq.trans (show parse_size_to_bytes ".5KB        " = .ok 512 from rfl).symm h
  exact absurd (Except.ok.inj h2) (by decide)

/-- Claim C2 (amended): for every size-field string, size decoding finds
the leftmost maximal run of digit-or-dot characters that is followed —
possibly after whitespace — by one of the exact case-sensitive unit
tokens B, KB, MB, GB, TB; if no such run exists it returns 0, if the run
is a valid decimal (at least one digit, at most one dot) it multiplies
the decimal value by 1, 1024, 1024^2, 1024^3 or 1024^4 respectively and
truncates the result to an integer, and otherwise it raises an error. -/
theorem parse_size_eq_amended_spec (s : String) :
    parse_size_to_bytes s = specSizeDecodeAmended s := by
  unfold parse_size_to_bytes specSizeDecodeAmended
  rw [reSearch_eq_amendedSearch]

/-- Claim C3 (code bug): a size field whose first digit-or-dot run before
a unit token is a lone dot makes `float` raise `ValueError`: decoding is
not total, and a snapshot file containing such a line makes the whole run
fail instead of degrading to size 0. -/
theorem parse_size_dot_field_raises :
    parse_size_to_bytes "       . B  " =
      .error "ValueError: could not convert string to float" ∧
    load_snapshot ["Header 1", "Header 2", "       . B  x"] =
      .error "ValueError: could not convert string to float" :=
  ⟨rfl, rfl⟩

/-- Claim C9 (counterexample): `format_bytes 0` is `"0 B"`, which does not
carry a leading `'+'` although `0 ≥ 0`. -/
theorem format_bytes_zero_counterexample :
    format_bytes 0 = "0 B" ∧ (0 : ℤ) ≥ 0 ∧
    (format_bytes 0).toList.head? ≠ some '+' := by
  refine ⟨rfl, by decide, by decide⟩

/-- Claim C9 (amended): `format_bytes 0` is exactly `"0 B"`; for every
positive integer the result carries a leading `'+'`, and for every
negative integer a leading `'-'`. -/
theorem format_bytes_sign :
    format_bytes 0 = "0 B" ∧
    (∀ n : ℤ, 0 < n → (format_bytes n).toList.head? = some '+') ∧
    (∀ n : ℤ, n < 0 → (format_bytes n).toList.head? = some '-') := by
  refine ⟨rfl, ?_, ?_⟩
  · intro n hn
    unfold format_bytes
    rw [if_neg (by omega)]
    apply string_head_append
    apply string_head_append
    rw [signedOneDecimal_head, if_neg (by omega)]
  · intro n hn
    unfold format_bytes
    rw [if_neg (by omega)]
    apply string_head_append
    apply string_head_append
    rw [signedOneDecimal_head, if_pos hn]

/-- Witness for the amended claim C9 at concrete inputs. -/
theorem format_bytes_sign_witness :
    (format_bytes 7).toList.head? = some '+' ∧
    (format_bytes (-7)).toList.head? = some '-' :=
  ⟨format_bytes_sign.2.1 7 (by decide), format_bytes_sign.2.2 (-7) (by decide)⟩

/-- Claim C4 (counterexample): on the retained line
`"        1 B ├── x"` the decoded depth is 1 but the path stack is empty,
so `path_stack[:1]` leaves it empty and after appending the name the
stack has 1 entry and the full path one segment — not the 2 entries and
2 segments the claim requires. -/
theorem shallow_stack_counterexample :
    indent_count (pyRstrip (("        1 B ├── x").toList.drop 12)) = 1 ∧
    processLine ([], []) "        1 B ├── x" = .ok (["x"], [("x", 1)]) ∧
    (["x"] : List String).length ≠ 1 + 1 :=
  ⟨rfl, rfl, by decide⟩

/-- Claim C4 (amended): on every retained line whose size field decodes
without error, the parser truncates the path stack to at most `d` entries
— its first `min d (stack length)` entries — then appends the decoded
name, records the resulting stack joined with `"/"` as the full path, and
afterwards the stack has exactly `min d (stack length) + 1` entries; when
the stack already had at least `d` entries this is the claimed `d + 1`. -/
theorem process_line_stack_shape (stack : List String) (snap : Snap)
    (line : String) (sz : ℤ)
    (h : parse_size_to_bytes (String.mk (line.toList.take 12)) = .ok sz) :
    ∃ stack',
      processLine (stack, snap) line =
        .ok (stack', insertAL snap (String.intercalate "/" stack') sz) ∧
      stack' = stack.take (indent_count (pyRstrip (line.toList.drop 12)))
        ++ [String.mk (nameChars (pyRstrip (line.toList.drop 12)))] ∧
      stack'.length
        = min (indent_count (pyRstrip (line.toList.drop 12))) stack.length + 1 := by
  refine ⟨_, ?_, rfl, ?_⟩
  · unfold processLine
    rw [h]
  · simp [List.length_append, List.length_take]

/-- Witness for the amended claim C4 at a concrete line with a depth
jump. -/
theorem process_line_stack_shape_witness :
    ∃ stack',
      processLine (["a", "b", "c"], []) "        1 B ├── x" =
        .ok (stack', insertAL [] (String.intercalate "/" stack') 1) ∧
      stack' = (["a", "b", "c"] : List String).take
          (indent_count (pyRstrip (("        1 B ├── x").toList.drop 12)))
        ++ [String.mk (nameChars (pyRstrip (("        1 B ├── x").toList.drop 12)))] ∧
      stack'.length = min
          (indent_count (pyRstrip (("        1 B ├── x").toList.drop 12)))
          (["a", "b", "c"] : List String).length + 1 :=
  process_line_stack_shape ["a", "b", "c"] [] "        1 B ├── x" 1 (by rfl)

/-- Claim C10 (counterexample): the 4-character, non-blank line `" . B"`
is shorter than 13 characters, yet no snapshot entry is produced for it:
its size field raises `ValueError` and the whole load fails. -/
theorem short_line_error_counterexample :
    (" . B").length ≤ 12 ∧ pyStrip (" . B").toList ≠ [] ∧
    load_snapshot ["h1", "h2", " . B"] =
      .error "ValueError: could not convert string to float" :=
  ⟨by decide, by decide, rfl⟩

/-- Claim C10 (amended): for every retained input line shorter than 13
characters the tree field is empty, the decoded name is the empty string
and the decoded depth is 0, the size field is the whole line, and — when
size decoding does not raise — the parser pushes the empty name onto the
stack and inserts an entry with key `""` and the decoded size. -/
theorem short_line_empty_name (stack : List String) (snap : Snap)
    (line : String) (hlen : line.length ≤ 12) :
    line.toList.drop 12 = [] ∧
    nameChars (pyRstrip (line.toList.drop 12)) = [] ∧
    indent_count (pyRstrip (line.toList.drop 12)) = 0 ∧
    String.mk (line.toList.take 12) = line ∧
    ∀ sz : ℤ, parse_size_to_bytes line = .ok sz →
      processLine (stack, snap) line = .ok ([""], insertAL snap "" sz) := by
  have hlen' : line.toList.length ≤ 12 := hlen
  have hdrop : line.toList.drop 12 = [] := by
    rw [List.drop_eq_nil_iff]
    exact hlen'
  have htake : line.toList.take 12 = line.toList := List.take_of_length_le hlen'
  have hmk : String.mk (line.toList.take 12) = line := by
    rw [htake]
    cases line
    rfl
  refine ⟨hdrop, by rw [hdrop]; rfl, by rw [hdrop]; rfl, hmk, ?_⟩
  intro sz hsz
  unfold processLine
  rw [hmk, hsz, hdrop]
  rfl

/-- Witness for the amended claim C10 at the concrete line `"abc"`. -/
theorem short_line_empty_name_witness :
    ("abc" : String).toList.drop 12 = [] ∧
    nameChars (pyRstrip (("abc" : String).toList.drop 12)) = [] ∧
    indent_count (pyRstrip (("abc" : String).toList.drop 12)) = 0 ∧
    String.mk (("abc" : String).toList.take 12) = "abc" ∧
    ∀ sz : ℤ, parse_size_to_bytes "abc" = .ok sz →
      processLine (["a"], [("z", 3)]) "abc" = .ok ([""], insertAL [("z", 3)] "" sz) :=
  short_line_empty_name ["a"] [("z", 3)] "abc" (by decide)

/-- The three tree-drawing prefix glyph sequences of the input format. -/
inductive Glyph where
  | tee | ell | bar
deriving DecidableEq, Repr

/-- The four characters of each glyph sequence: `'├── '`, `'└── '`,
`'│   '`. -/
def glyphChars : Glyph → List Char
  | .tee => ['├', '─', '─', ' ']
  | .ell => ['└', '─', '─', ' ']
  | .bar => ['│', ' ', ' ', ' ']

/-- Concatenation of a prefix of glyph sequences. -/
def glyphsFlat : List Glyph → List Char
  | [] => []
  | g :: gs => glyphChars g ++ glyphsFlat gs

theorem replace4_skip1 (w x y z : Char) (rep : List Char) (a : Char)
    (s : List Char) (ha : a ≠ w) :
    replace4 w x y z rep (a :: s) = a :: replace4 w x y z rep s := by
  match s with
  | [] => rfl
  | [b] => rfl
  | [b, c] => rfl
  | b :: c :: d :: rest =>
    show (if a = w ∧ b = x ∧ c = y ∧ d = z then _ else _) = _
    rw [if_neg]
    intro hcon
    exact ha hcon.1

theorem replace4_skip (w x y z : Char) (rep : List Char) (b s : List Char)
    (hb : ∀ c ∈ b, c ≠ w) :
    replace4 w x y z rep (b ++ s) = b ++ replace4 w x y z rep s := by
  induction b with
  | nil => rfl
  | cons a b ih =>
    rw [List.cons_append, replace4_skip1 _ _ _ _ _ _ _ (hb a (by simp)),
      ih (fun c hc => hb c (by simp [hc]))]
    rfl

theorem replace4_match (w x y z : Char) (rep : List Char) (s : List Char) :
    replace4 w x y z rep (w :: x :: y :: z :: s) = rep ++ replace4 w x y z rep s := by
  show (if w = w ∧ x = x ∧ y = y ∧ z = z then _ else _) = _
  rw [if_pos ⟨rfl, rfl, rfl, rfl⟩]

/-- Distribution of one `replace` pass over a sequence of 4-character
blocks, each of which is either the pattern itself or free of the
pattern's first character: matched blocks become the replacement, the
rest pass through, and the tail is replaced independently. -/
theorem replace4_blocks (w x y z : Char) (rep : List Char)
    (blocks : List (List Char)) (r : List Char)
    (hb : ∀ b ∈ blocks, b = [w, x, y, z] ∨ ∀ c ∈ b, c ≠ w) :
    replace4 w x y z rep (blocks.foldr (· ++ ·) r)
      = (blocks.map fun b => if b = [w, x, y, z] then rep else b).foldr (· ++ ·)
          (replace4 w x y z rep r) := by
  induction blocks with
  | nil => rfl
  | cons b bs ih =>
    have hbs : ∀ b' ∈ bs, b' = [w, x, y, z] ∨ ∀ c ∈ b', c ≠ w :=
      fun b' hb' => hb b' (by simp [hb'])
    rcases hb b (by simp) with hpat | hfree
    · subst hpat
      rw [List.foldr_cons, List.cons_append]
      show replace4 w x y z rep (w :: x :: y :: z :: List.foldr (· ++ ·) r bs) = _
      rw [replace4_match, ih hbs, List.map_cons, if_pos rfl, List.foldr_cons]
    · have hne : b ≠ [w, x, y, z] := by
        intro hcon
        exact hfree w (by rw [hcon]; simp) rfl
      rw [List.foldr_cons, replace4_skip _ _ _ _ _ _ _ hfree, ih hbs,
        List.map_cons, if_neg hne, List.foldr_cons]

theorem indentContent_glyphs (ps : List Glyph) (r : List Char) :
    indentContent (glyphsFlat ps ++ r)
      = List.replicate (4 * ps.length) ' ' ++ indentContent r := by
  have hflat : ∀ ps : List Glyph,
      glyphsFlat ps = (ps.map glyphChars).foldr (· ++ ·) ([] : List Char) := by
    intro ps
    induction ps with
    | nil => rfl
    | cons g gs ih => simp [glyphsFlat, ih]
  have hfoldapp : ∀ (bs : List (List Char)) (r : List Char),
      bs.foldr (· ++ ·) ([] : List Char) ++ r = bs.foldr (· ++ ·) r := by
    intro bs r
    induction bs with
    | nil => rfl
    | cons b bs ih => simp [ih]
  unfold indentContent
  rw [hflat, hfoldapp]
  rw [replace4_blocks '├' '─' '─' ' ' sp4 (ps.map glyphChars) r ?hb1]
  case hb1 =>
    intro b hbmem
    rcases List.mem_map.mp hbmem with ⟨g, _, rfl⟩
    cases g
    · exact Or.inl rfl
    · exact Or.inr (by intro c hc; fin_cases hc <;> decide)
    · exact Or.inr (by intro c hc; fin_cases hc <;> decide)
  rw [List.map_map]
  rw [replace4_blocks '└' '─' '─' ' ' sp4 _ _ ?hb2]
  case hb2 =>
    intro b hbmem
    rcases List.mem_map.mp hbmem with ⟨g, _, rfl⟩
    cases g
    · exact Or.inr (by intro c hc; simp [glyphChars, sp4] at hc; subst hc; decide)
    · exact Or.inl (by rfl)
    · exact Or.inr (by intro c hc; simp [glyphChars] at hc; rcases hc with h | h <;> (subst h; decide))
  rw [List.map_map]
  rw [replace4_blocks '│' ' ' ' ' ' ' sp4 _ _ ?hb3]
  case hb3 =>
    intro b hbmem
    rcases List.mem_map.mp hbmem with ⟨g, _, rfl⟩
    cases g
    · exact Or.inr (by intro c hc; simp [glyphChars, sp4] at hc; subst hc; decide)
    · exact Or.inr (by intro c hc; simp [glyphChars, sp4] at hc; subst hc; decide)
    · exact Or.inl (by rfl)
  rw [List.map_map]
  have hall : List.map
      ((fun b => if b = ['│', ' ', ' ', ' '] then sp4 else b) ∘
        (fun b => if b = ['└', '─', '─', ' '] then sp4 else b) ∘
          (fun b => if b = ['├', '─', '─', ' '] then sp4 else b) ∘ glyphChars) ps
      = ps.map fun _ => sp4 := by
    apply List.map_congr_left
    intro g _
    cases g <;> rfl
  rw [hall]
  have hrep : ∀ k : ℕ, (List.replicate k sp4).foldr (· ++ ·) (indentContent r)
      = List.replicate (4 * k) ' ' ++ indentContent r := by
    intro k
    induction k with
    | zero => rfl
    | succ m ih =>
      rw [List.replicate_succ, List.foldr_cons, ih]
      show sp4 ++ (List.replicate (4 * m) ' ' ++ indentContent r) = _
      rw [show sp4 = List.replicate 4 ' ' from rfl, ← List.append_assoc,
        ← List.replicate_add, show 4 + 4 * m = 4 * (m + 1) by ring]
  rw [show (ps.map fun _ => sp4) = List.replicate ps.length sp4 by
    simp [List.map_const]]
  exact hrep ps.length

theorem leadingSpaces_replicate (k : ℕ) (r : List Char) :
    leadingSpaces (List.replicate k ' ' ++ r) = k + leadingSpaces r := by
  unfold leadingSpaces
  induction k with
  | zero => simp
  | succ m ih =>
    rw [List.replicate_succ, List.cons_append,
      List.takeWhile_cons_of_pos (by decide), List.length_cons]
    omega

/-- Claim C7: depth decoding replaces each of the three 4-character glyph
sequences with four spaces; each contributes exactly one indentation unit,
so any two tree fields that differ only in which glyph sequence is used at
each level decode to the same depth, and a field made of `d` glyph
sequences followed by a name decodes to depth `d`. -/
theorem depth_glyph_invariance (ps qs : List Glyph) (r : List Char)
    (h : ps.length = qs.length) :
    indent_count (glyphsFlat ps ++ r) = indent_count (glyphsFlat qs ++ r) ∧
    indent_count (glyphsFlat ps ++ ['x']) = ps.length := by
  constructor
  · unfold indent_count
    rw [indentContent_glyphs, indentContent_glyphs, leadingSpaces_replicate,
      leadingSpaces_replicate, h]
  · unfold indent_count
    rw [indentContent_glyphs, leadingSpaces_replicate]
    rw [show indentContent ['x'] = ['x'] from rfl]
    rw [show leadingSpaces ['x'] = 0 from rfl]
    omega

/-- Witness for claim C7: a `'├── '` prefix and a `'│   '` prefix give the
same depth on a common remainder field. -/
theorem depth_glyph_invariance_witness :
    indent_count (glyphsFlat [Glyph.tee] ++ ['a', 'b']) =
      indent_count (glyphsFlat [Glyph.bar] ++ ['a', 'b']) ∧
    indent_count (glyphsFlat [Glyph.tee] ++ ['x']) = [Glyph.tee].length :=
  depth_glyph_invariance [Glyph.tee] [Glyph.bar] ['a', 'b'] (by decide)

theorem strLeB_total : ∀ a b : List Char, strLeB a b = true ∨ strLeB b a = true
  | [], _ => Or.inl rfl
  | _ :: _, [] => Or.inr rfl
  | x :: xs, y :: ys => by
    by_cases hxy : x.toNat < y.toNat
    · left
      show (if x.toNat < y.toNat then true else _) = true
      rw [if_pos hxy]
    · by_cases hyx : y.toNat < x.toNat
      · right
        show (if y.toNat < x.toNat then true else _) = true
        rw [if_pos hyx]
      · have h1 : strLeB (x :: xs) (y :: ys) = strLeB xs ys := by
          show (if x.toNat < y.toNat then true else if y.toNat < x.toNat then false else _) = _
          rw [if_neg hxy, if_neg hyx]
        have h2 : strLeB (y :: ys) (x :: xs) = strLeB ys xs := by
          show (if y.toNat < x.toNat then true else if x.toNat < y.toNat then false else _) = _
          rw [if_neg hyx, if_neg hxy]
        rw [h1, h2]
        exact strLeB_total xs ys

theorem strLeB_trans : ∀ a b c : List Char,
    strLeB a b = true → strLeB b c = true → strLeB a c = true
  | [], _, _, _, _ => rfl
  | _ :: _, [], _, h1, _ => by cases h1
  | _ :: _, _ :: _, [], _, h2 => by cases h2
  | x :: xs, y :: ys, z :: zs, h1, h2 => by
    have hsplit : ∀ (u v : Char) (us vs : List Char), strLeB (u :: us) (v :: vs) = true →
        u.toNat < v.toNat ∨ (u.toNat = v.toNat ∧ strLeB us vs = true) := by
      intro u v us vs h
      by_cases huv : u.toNat < v.toNat
      · exact Or.inl huv
      · by_cases hvu : v.toNat < u.toNat
        · exfalso
          have : strLeB (u :: us) (v :: vs) = false := by
            show (if u.toNat < v.toNat then true else if v.toNat < u.toNat then false else _) = _
            rw [if_neg huv, if_pos hvu]
          rw [this] at h
          cases h
        · refine Or.inr ⟨by omega, ?_⟩
          have : strLeB (u :: us) (v :: vs) = strLeB us vs := by
            show (if u.toNat < v.toNat then true else if v.toNat < u.toNat then false else _) = _
            rw [if_neg huv, if_neg hvu]
          rw [← this]
          exact h
    have hmk : ∀ (u v : Char) (us vs : List Char), u.toNat < v.toNat →
        strLeB (u :: us) (v :: vs) = true := by
      intro u v us vs huv
      show (if u.toNat < v.toNat then true else _) = true
      rw [if_pos huv]
    rcases hsplit x y xs ys h1 with hxy | ⟨hxy, hxys⟩
    · rcases hsplit y z ys zs h2 with hyz | ⟨hyz, _⟩
      · exact hmk x z xs zs (by omega)
      · exact hmk x z xs zs (by omega)
    · rcases hsplit y z ys zs h2 with hyz | ⟨hyz, hyzs⟩
      · exact hmk x z xs zs (by omega)
      · have heads : ¬x.toNat < z.toNat ∧ ¬z.toNat < x.toNat := by omega
        have : strLeB (x :: xs) (z :: zs) = strLeB xs zs := by
          show (if x.toNat < z.toNat then true else if z.toNat < x.toNat then false else _) = _
          rw [if_neg heads.1, if_neg heads.2]
        rw [this]
        exact strLeB_trans xs ys zs hxys hyzs

theorem char_toNat_inj {x y : Char} (h : x.toNat = y.toNat) : x = y := by
  have : Char.ofNat x.toNat = Char.ofNat y.toNat := by rw [h]
  rwa [Char.ofNat_toNat, Char.ofNat_toNat] at this

theorem strLeB_antisymm : ∀ a b : List Char,
    strLeB a b = true → strLeB b a = true → a = b
  | [], [], _, _ => rfl
  | [], _ :: _, _, h2 => by cases h2
  | _ :: _, [], h1, _ => by cases h1
  | x :: xs, y :: ys, h1, h2 => by
    by_cases hxy : x.toNat < y.toNat
    · exfalso
      have : strLeB (y :: ys) (x :: xs) = false := by
        show (if y.toNat < x.toNat then true else if x.toNat < y.toNat then false else _) = _
        rw [if_neg (by omega), if_pos hxy]
      rw [this] at h2
      cases h2
    · by_cases hyx : y.toNat < x.toNat
      · exfalso
        have : strLeB (x :: xs) (y :: ys) = false := by
          show (if x.toNat < y.toNat then true else if y.toNat < x.toNat then false else _) = _
          rw [if_neg hxy, if_pos hyx]
        rw [this] at h1
        cases h1
      · have e1 : strLeB (x :: xs) (y :: ys) = strLeB xs ys := by
          show (if x.toNat < y.toNat then true else if y.toNat < x.toNat then false else _) = _
          rw [if_neg hxy, if_neg hyx]
        have e2 : strLeB (y :: ys) (x :: xs) = strLeB ys xs := by
          show (if y.toNat < x.toNat then true else if x.toNat < y.toNat then false else _) = _
          rw [if_neg hyx, if_neg hxy]
        rw [e1] at h1
        rw [e2] at h2
        rw [char_toNat_inj (show x.toNat = y.toNat by omega),
          strLeB_antisymm xs ys h1 h2]

theorem string_toList_inj {a b : String} (h : a.toList = b.toList) : a = b := by
  cases a
  cases b
  exact congrArg String.mk h

instance : IsTotal String pathLe :=
  ⟨fun a b => strLeB_total a.toList b.toList⟩

instance : IsTrans String pathLe :=
  ⟨fun a b c h1 h2 => strLeB_trans a.toList b.toList c.toList h1 h2⟩

instance : IsAntisymm String pathLe :=
  ⟨fun a b h1 h2 => string_toList_inj (strLeB_antisymm a.toList b.toList h1 h2)⟩

theorem lookupAL_eq_none_iff (s : Snap) (p : String) :
    lookupAL s p = none ↔ p ∉ s.map Prod.fst := by
  induction s with
  | nil => simp [lookupAL]
  | cons kv t ih =>
    obtain ⟨k, v⟩ := kv
    by_cases hk : k = p
    · subst hk
      simp [lookupAL]
    · simp only [lookupAL, if_neg hk, List.map_cons, List.mem_cons, ih]
      constructor
      · intro h hcon
        rcases hcon with hcon | hcon
        · exact hk hcon.symm
        · exact h hcon
      · intro h hmem
        exact h (Or.inr hmem)

theorem sortedUnion_perm (o n : Snap) :
    List.Perm (sortedUnion o n) (unionKeys o n) :=
  List.perm_insertionSort pathLe (unionKeys o n)

theorem diffRecords_cons_add (ps : List String) (o n : Snap) (q : String)
    (sn : ℤ) (ho : lookupAL o q = none) (hn : lookupAL n q = some sn) :
    diffRecords (q :: ps) o n =
      ⟨(q, sn) :: (diffRecords ps o n).added, (diffRecords ps o n).removed,
        (diffRecords ps o n).changed⟩ := by
  conv_lhs => rw [diffRecords]
  rw [ho, hn]

theorem diffRecords_cons_rem (ps : List String) (o n : Snap) (q : String)
    (so : ℤ) (ho : lookupAL o q = some so) (hn : lookupAL n q = none) :
    diffRecords (q :: ps) o n =
      ⟨(diffRecords ps o n).added, (q, so) :: (diffRecords ps o n).removed,
        (diffRecords ps o n).changed⟩ := by
  conv_lhs => rw [diffRecords]
  rw [ho, hn]

theorem diffRecords_cons_both (ps : List String) (o n : Snap) (q : String)
    (so sn : ℤ) (ho : lookupAL o q = some so) (hn : lookupAL n q = some sn) :
    diffRecords (q :: ps) o n =
      if sn - so ≠ 0 then
        ⟨(diffRecords ps o n).added, (diffRecords ps o n).removed,
          (q, sn - so, sn) :: (diffRecords ps o n).changed⟩
      else diffRecords ps o n := by
  conv_lhs => rw [diffRecords]
  rw [ho, hn]

theorem diffRecords_cons_neither (ps : List String) (o n : Snap) (q : String)
    (ho : lookupAL o q = none) (hn : lookupAL n q = none) :
    diffRecords (q :: ps) o n = diffRecords ps o n := by
  conv_lhs => rw [diffRecords]
  rw [ho, hn]

theorem sortedUnion_nodup (o n : Snap) : (sortedUnion o n).Nodup :=
  (sortedUnion_perm o n).nodup_iff.mpr (List.nodup_dedup _)

theorem mem_sortedUnion (o n : Snap) (p : String) :
    p ∈ sortedUnion o n ↔ p ∈ o.map Prod.fst ∨ p ∈ n.map Prod.fst := by
  rw [(sortedUnion_perm o n).mem_iff]
  unfold unionKeys
  rw [List.mem_dedup, List.mem_append]

theorem diffRecords_notin (ps : List String) (o n : Snap) (p : String)
    (hp : p ∉ ps) :
    p ∉ (diffRecords ps o n).added.map Prod.fst ∧
    p ∉ (diffRecords ps o n).removed.map Prod.fst ∧
    p ∉ (diffRecords ps o n).changed.map Prod.fst := by
  induction ps with
  | nil => exact ⟨by simp [diffRecords], by simp [diffRecords], by simp [diffRecords]⟩
  | cons q ps ih =>
    have hpq : p ≠ q := fun hcon => hp (by simp [hcon])
    have hps : p ∉ ps := fun hcon => hp (by simp [hcon])
    obtain ⟨ha, hr, hc⟩ := ih hps
    cases ho : lookupAL o q <;> cases hn : lookupAL n q
    · rw [diffRecords_cons_neither ps o n q ho hn]
      exact ⟨ha, hr, hc⟩
    · rename_i sn
      rw [diffRecords_cons_add ps o n q sn ho hn]
      exact ⟨by simp [hpq, ha], hr, hc⟩
    · rename_i so
      rw [diffRecords_cons_rem ps o n q so ho hn]
      exact ⟨ha, by simp [hpq, hr], hc⟩
    · rename_i so sn
      rw [diffRecords_cons_both ps o n q so sn ho hn]
      by_cases hd : sn - so ≠ 0
      · rw [if_pos hd]
        exact ⟨ha, hr, by simp [hpq, hc]⟩
      · rw [if_neg hd]
        exact ⟨ha, hr, hc⟩

theorem diffRecords_mem (ps : List String) (o n : Snap) (p : String)
    (hnd : ps.Nodup) (hp : p ∈ ps) :
    (∀ sn, lookupAL o p = none → lookupAL n p = some sn →
      (p, sn) ∈ (diffRecords ps o n).added ∧
      p ∉ (diffRecords ps o n).removed.map Prod.fst ∧
      p ∉ (diffRecords ps o n).changed.map Prod.fst) ∧
    (∀ so, lookupAL o p = some so → lookupAL n p = none →
      (p, so) ∈ (diffRecords ps o n).removed ∧
      p ∉ (diffRecords ps o n).added.map Prod.fst ∧
      p ∉ (diffRecords ps o n).changed.map Prod.fst) ∧
    (∀ so sn, lookupAL o p = some so → lookupAL n p = some sn → sn = so →
      p ∉ (diffRecords ps o n).added.map Prod.fst ∧
      p ∉ (diffRecords ps o n).removed.map Prod.fst ∧
      p ∉ (diffRecords ps o n).changed.map Prod.fst) ∧
    (∀ so sn, lookupAL o p = some so → lookupAL n p = some sn → sn ≠ so →
      (p, sn - so, sn) ∈ (diffRecords ps o n).changed ∧
      p ∉ (diffRecords ps o n).added.map Prod.fst ∧
      p ∉ (diffRecords ps o n).removed.map Prod.fst) := by
  induction ps with
  | nil => cases hp
  | cons q ps ih =>
    have hqps : q ∉ ps := (List.nodup_cons.mp hnd).1
    have hndps : ps.Nodup := (List.nodup_cons.mp hnd).2
    by_cases hpq : p = q
    · subst hpq
      obtain ⟨ha, hr, hc⟩ := diffRecords_notin ps o n p hqps
      refine ⟨?_, ?_, ?_, ?_⟩
      · intro sn ho hn
        rw [diffRecords_cons_add ps o n p sn ho hn]
        exact ⟨by simp, hr, hc⟩
      · intro so ho hn
        rw [diffRecords_cons_rem ps o n p so ho hn]
        exact ⟨by simp, ha, hc⟩
      · intro so sn ho hn heq
        rw [diffRecords_cons_both ps o n p so sn ho hn, if_neg (by omega)]
        exact ⟨ha, hr, hc⟩
      · intro so sn ho hn hne
        rw [diffRecords_cons_both ps o n p so sn ho hn, if_pos (by omega)]
        exact ⟨by simp, ha, hr⟩
    · have hpps : p ∈ ps := by
        rcases List.mem_cons.mp hp with h | h
        · exact absurd h hpq
        · exact h
      obtain ⟨iha, ihr, ihe, ihc⟩ := ih hndps hpps
      refine ⟨?_, ?_, ?_, ?_⟩
      · intro sn ho hn
        obtain ⟨m1, m2, m3⟩ := iha sn ho hn
        cases hoq : lookupAL o q <;> cases hnq : lookupAL n q
        · rw [diffRecords_cons_neither ps o n q hoq hnq]
          exact ⟨m1, m2, m3⟩
        · rename_i sn'
          rw [diffRecords_cons_add ps o n q sn' hoq hnq]
          exact ⟨by simp [m1], m2, m3⟩
        · rename_i so'
          rw [diffRecords_cons_rem ps o n q so' hoq hnq]
          exact ⟨m1, by simp [hpq, m2], m3⟩
        · rename_i so' sn'
          rw [diffRecords_cons_both ps o n q so' sn' hoq hnq]
          by_cases hd : sn' - so' ≠ 0
          · rw [if_pos hd]
            exact ⟨m1, m2, by simp [hpq, m3]⟩
          · rw [if_neg hd]
            exact ⟨m1, m2, m3⟩
      · intro so ho hn
        obtain ⟨m1, m2, m3⟩ := ihr so ho hn
        cases hoq : lookupAL o q <;> cases hnq : lookupAL n q
        · rw [diffRecords_cons_neither ps o n q hoq hnq]
          exact ⟨m1, m2, m3⟩
        · rename_i sn'
          rw [diffRecords_cons_add ps o n q sn' hoq hnq]
          exact ⟨m1, by simp [hpq, m2], m3⟩
        · rename_i so'
          rw [diffRecords_cons_rem ps o n q so' hoq hnq]
          exact ⟨by simp [m1], m2, m3⟩
        · rename_i so' sn'
          rw [diffRecords_cons_both ps o n q so' sn' hoq hnq]
          by_cases hd : sn' - so' ≠ 0
          · rw [if_pos hd]
            exact ⟨m1, m2, by simp [hpq, m3]⟩
          · rw [if_neg hd]
            exact ⟨m1, m2, m3⟩
      · intro so sn ho hn heq
        obtain ⟨m1, m2, m3⟩ := ihe so sn ho hn heq
        cases hoq : lookupAL o q <;> cases hnq : lookupAL n q
        · rw [diffRecords_cons_neither ps o n q hoq hnq]
          exact ⟨m1, m2, m3⟩
        · rename_i sn'
          rw [diffRecords_cons_add ps o n q sn' hoq hnq]
          exact ⟨by simp [hpq, m1], m2, m3⟩
        · rename_i so'
          rw [diffRecords_cons_rem ps o n q so' hoq hnq]
          exact ⟨m1, by simp [hpq, m2], m3⟩
        · rename_i so' sn'
          rw [diffRecords_cons_both ps o n q so' sn' hoq hnq]
          by_cases hd : sn' - so' ≠ 0
          · rw [if_pos hd]
            exact ⟨m1, m2, by simp [hpq, m3]⟩
          · rw [if_neg hd]
            exact ⟨m1, m2, m3⟩
      · intro so sn ho hn hne
        obtain ⟨m1, m2, m3⟩ := ihc so sn ho hn hne
        cases hoq : lookupAL o q <;> cases hnq : lookupAL n q
        · rw [diffRecords_cons_neither ps o n q hoq hnq]
          exact ⟨m1, m2, m3⟩
        · rename_i sn'
          rw [diffRecords_cons_add ps o n q sn' hoq hnq]
          exact ⟨m1, by simp [hpq, m2], m3⟩
        · rename_i so'
          rw [diffRecords_cons_rem ps o n q so' hoq hnq]
          exact ⟨m1, m2, by simp [hpq, m3]⟩
        · rename_i so' sn'
          rw [diffRecords_cons_both ps o n q so' sn' hoq hnq]
          by_cases hd : sn' - so' ≠ 0
          · rw [if_pos hd]
            exact ⟨by simp [m1], m2, m3⟩
          · rw [if_neg hd]
            exact ⟨m1, m2, m3⟩

/-- Claim C1: every path in the union of the two key sets falls into
exactly one of the four cases — only in new: an `Added(path, newSize)`
record in the added list and nothing elsewhere; only in old:
`Removed(path, oldSize)` in the removed list; in both with equal sizes:
no record; in both with differing sizes: `Changed(path, newSize-oldSize,
newSize)` in the changed list. -/
theorem diff_union_case_analysis (o n : Snap) (p : String)
    (hp : p ∈ sortedUnion o n) :
    ¬(lookupAL o p = none ∧ lookupAL n p = none) ∧
    (∀ sn, lookupAL o p = none → lookupAL n p = some sn →
      (p, sn) ∈ (computeDiff o n).added ∧
      p ∉ (computeDiff o n).removed.map Prod.fst ∧
      p ∉ (computeDiff o n).changed.map Prod.fst) ∧
    (∀ so, lookupAL o p = some so → lookupAL n p = none →
      (p, so) ∈ (computeDiff o n).removed ∧
      p ∉ (computeDiff o n).added.map Prod.fst ∧
      p ∉ (computeDiff o n).changed.map Prod.fst) ∧
    (∀ so sn, lookupAL o p = some so → lookupAL n p = some sn → sn = so →
      p ∉ (computeDiff o n).added.map Prod.fst ∧
      p ∉ (computeDiff o n).removed.map Prod.fst ∧
      p ∉ (computeDiff o n).changed.map Prod.fst) ∧
    (∀ so sn, lookupAL o p = some so → lookupAL n p = some sn → sn ≠ so →
      (p, sn - so, sn) ∈ (computeDiff o n).changed ∧
      p ∉ (computeDiff o n).added.map Prod.fst ∧
      p ∉ (computeDiff o n).removed.map Prod.fst) := by
  constructor
  · intro ⟨ho, hn⟩
    rcases (mem_sortedUnion o n p).mp hp with hm | hm
    · exact (lookupAL_eq_none_iff o p).mp ho hm
    · exact (lookupAL_eq_none_iff n p).mp hn hm
  · exact diffRecords_mem (sortedUnion o n) o n p (sortedUnion_nodup o n) hp

/-- Witness for claim C1 on concrete snapshots exercising the
added case. -/
theorem diff_union_case_analysis_witness :
    ("b", (2 : ℤ)) ∈ (computeDiff [("a", 1), ("c", 3)] [("b", 2), ("c", 3)]).added ∧
    "b" ∉ ((computeDiff [("a", 1), ("c", 3)] [("b", 2), ("c", 3)]).removed.map Prod.fst) ∧
    "b" ∉ ((computeDiff [("a", 1), ("c", 3)] [("b", 2), ("c", 3)]).changed.map Prod.fst) :=
  (diff_union_case_analysis [("a", 1), ("c", 3)] [("b", 2), ("c", 3)] "b"
    (by decide)).2.1 2 (by rfl) (by rfl)

theorem diffRecords_fst_sublist (ps : List String) (o n : Snap) :
    ((diffRecords ps o n).added.map Prod.fst).Sublist ps ∧
    ((diffRecords ps o n).removed.map Prod.fst).Sublist ps ∧
    ((diffRecords ps o n).changed.map Prod.fst).Sublist ps := by
  induction ps with
  | nil =>
    exact ⟨by simp [diffRecords], by simp [diffRecords], by simp [diffRecords]⟩
  | cons q ps ih =>
    obtain ⟨s1, s2, s3⟩ := ih
    cases ho : lookupAL o q <;> cases hn : lookupAL n q
    · rw [diffRecords_cons_neither ps o n q ho hn]
      exact ⟨s1.cons q, s2.cons q, s3.cons q⟩
    · rename_i sn
      rw [diffRecords_cons_add ps o n q sn ho hn]
      exact ⟨by simpa using s1.cons₂ q, s2.cons q, s3.cons q⟩
    · rename_i so
      rw [diffRecords_cons_rem ps o n q so ho hn]
      exact ⟨s1.cons q, by simpa using s2.cons₂ q, s3.cons q⟩
    · rename_i so sn
      rw [diffRecords_cons_both ps o n q so sn ho hn]
      by_cases hd : sn - so ≠ 0
      · rw [if_pos hd]
        exact ⟨s1.cons q, s2.cons q, by simpa using s3.cons₂ q⟩
      · rw [if_neg hd]
        exact ⟨s1.cons q, s2.cons q, s3.cons q⟩

theorem diffRecords_length_le (ps : List String) (o n : Snap) :
    (diffRecords ps o n).added.length + (diffRecords ps o n).removed.length +
      (diffRecords ps o n).changed.length ≤ ps.length := by
  induction ps with
  | nil => simp [diffRecords]
  | cons q ps ih =>
    cases ho : lookupAL o q <;> cases hn : lookupAL n q
    · rw [diffRecords_cons_neither ps o n q ho hn]
      simp only [List.length_cons]
      omega
    · rename_i sn
      rw [diffRecords_cons_add ps o n q sn ho hn]
      simp only [List.length_cons]
      show (diffRecords ps o n).added.length + 1 + _ + _ ≤ _ + 1
      omega
    · rename_i so
      rw [diffRecords_cons_rem ps o n q so ho hn]
      simp only [List.length_cons]
      show _ + ((diffRecords ps o n).removed.length + 1) + _ ≤ _ + 1
      omega
    · rename_i so sn
      rw [diffRecords_cons_both ps o n q so sn ho hn]
      by_cases hd : sn - so ≠ 0
      · rw [if_pos hd]
        simp only [List.length_cons]
        show _ + _ + ((diffRecords ps o n).changed.length + 1) ≤ _ + 1
        omega
      · rw [if_neg hd]
        simp only [List.length_cons]
        omega

theorem sortedUnion_sorted (o n : Snap) :
    List.Sorted pathLe (sortedUnion o n) :=
  List.sorted_insertionSort pathLe (unionKeys o n)

/-- Claim C5: the diff iterates the sorted union, so the added, removed
and changed lists are each internally sorted by path in strictly
ascending string order, and their lengths sum to at most the number of
distinct paths in the union. -/
theorem diff_lists_sorted_and_bounded (o n : Snap) :
    List.Sorted (fun a b => pathLe a b ∧ a ≠ b)
      ((computeDiff o n).added.map Prod.fst) ∧
    List.Sorted (fun a b => pathLe a b ∧ a ≠ b)
      ((computeDiff o n).removed.map Prod.fst) ∧
    List.Sorted (fun a b => pathLe a b ∧ a ≠ b)
      ((computeDiff o n).changed.map Prod.fst) ∧
    (computeDiff o n).added.length + (computeDiff o n).removed.length +
      (computeDiff o n).changed.length ≤ (unionKeys o n).length := by
  have hpair : List.Pairwise (fun a b => pathLe a b ∧ a ≠ b) (sortedUnion o n) :=
    (sortedUnion_sorted o n).and (sortedUnion_nodup o n)
  obtain ⟨s1, s2, s3⟩ := diffRecords_fst_sublist (sortedUnion o n) o n
  refine ⟨hpair.sublist s1, hpair.sublist s2, hpair.sublist s3, ?_⟩
  have hlen := diffRecords_length_le (sortedUnion o n) o n
  rw [(sortedUnion_perm o n).length_eq] at hlen
  exact hlen

theorem sortedUnion_swap (o n : Snap) : sortedUnion o n = sortedUnion n o := by
  refine List.eq_of_perm_of_sorted ?_ (sortedUnion_sorted o n) (sortedUnion_sorted n o)
  refine (sortedUnion_perm o n).trans (List.Perm.trans ?_ (sortedUnion_perm n o).symm)
  exact (List.perm_append_comm).dedup

theorem diffRecords_swap (ps : List String) (o n : Snap) :
    (diffRecords ps n o).added = (diffRecords ps o n).removed ∧
    (diffRecords ps n o).removed = (diffRecords ps o n).added ∧
    (diffRecords ps n o).changed = (diffRecords ps o n).changed.map
      (fun t => (t.1, -t.2.1, t.2.2 - t.2.1)) := by
  induction ps with
  | nil => exact ⟨rfl, rfl, rfl⟩
  | cons q ps ih =>
    obtain ⟨e1, e2, e3⟩ := ih
    cases ho : lookupAL o q <;> cases hn : lookupAL n q
    · rw [diffRecords_cons_neither ps n o q hn ho,
        diffRecords_cons_neither ps o n q ho hn]
      exact ⟨e1, e2, e3⟩
    · rename_i sn
      rw [diffRecords_cons_rem ps n o q sn hn ho,
        diffRecords_cons_add ps o n q sn ho hn]
      exact ⟨e1, by rw [show ((⟨_, (q, sn) :: (diffRecords ps n o).removed, _⟩ :
        DiffResult)).removed = (q, sn) :: (diffRecords ps n o).removed from rfl, e2], e3⟩
    · rename_i so
      rw [diffRecords_cons_add ps n o q so hn ho,
        diffRecords_cons_rem ps o n q so ho hn]
      exact ⟨by rw [show ((⟨(q, so) :: (diffRecords ps n o).added, _, _⟩ :
        DiffResult)).added = (q, so) :: (diffRecords ps n o).added from rfl, e1], e2, e3⟩
    · rename_i so sn
      rw [diffRecords_cons_both ps n o q sn so hn ho,
        diffRecords_cons_both ps o n q so sn ho hn]
      by_cases hd : sn - so = 0
      · rw [if_neg (by omega), if_neg (by omega)]
        exact ⟨e1, e2, e3⟩
      · rw [if_pos (by omega), if_pos (by omega)]
        refine ⟨e1, e2, ?_⟩
        show (q, so - sn, so) :: (diffRecords ps n o).changed = _
        rw [e3]
        show _ = ((q, sn - so, sn) :: (diffRecords ps o n).changed).map
          (fun t => (t.1, -t.2.1, t.2.2 - t.2.1))
        rw [List.map_cons]
        have hfst : -(sn - so) = so - sn := by ring
        have hsnd : sn - (sn - so) = so := by ring
        congr 1
        show (q, so - sn, so) = (q, -(sn - so), sn - (sn - so))
        rw [hfst, hsnd]

/-- Claim C6: swapping the diff engine's two arguments turns the added
list into the removed list of the other direction and vice versa, and
each changed record's delta is negated while its current size becomes the
value from the snapshot that is the `new` argument in the swapped
direction (currentSize minus delta, i.e. the old value). -/
theorem diff_swap_antisymmetry (o n : Snap) :
    (computeDiff n o).added = (computeDiff o n).removed ∧
    (computeDiff n o).removed = (computeDiff o n).added ∧
    (computeDiff n o).changed = (computeDiff o n).changed.map
      (fun t => (t.1, -t.2.1, t.2.2 - t.2.1)) := by
  unfold computeDiff
  rw [sortedUnion_swap n o]
  exact diffRecords_swap (sortedUnion o n) o n

/-- Claim C8: if loading either snapshot fails — a file-system error or
any exception raised during parsing — the program prints exactly the
error message naming that file path and the underlying cause, exits with
status 1, and writes no report file; otherwise it exits 0 with the report
file written and the two confirmation lines printed. -/
theorem main_exit_and_report (fs : String → Except String (List String))
    (old_file new_file : String) :
    (∀ e, load_from fs old_file = .error e →
      main_run fs old_file new_file = ⟨1, [error_message old_file e], none⟩) ∧
    (∀ o e, load_from fs old_file = .ok o →
      load_from fs new_file = .error e →
      main_run fs old_file new_file = ⟨1, [error_message new_file e], none⟩) ∧
    (∀ o n, load_from fs old_file = .ok o → load_from fs new_file = .ok n →
      main_run fs old_file new_file =
        ⟨0, ["✨ 差分解析が完了しました！",
            "📄 出力結果: " ++ output_name old_file new_file],
          some (output_name old_file new_file,
            render_report old_file new_file (computeDiff o n))⟩) := by
  refine ⟨?_, ?_, ?_⟩
  · intro e he
    unfold main_run
    rw [he]
  · intro o e ho he
    unfold main_run
    rw [ho, he]
  · intro o n ho hn
    unfold main_run
    rw [ho, hn]

/-- Witness for claim C8: a failing file system aborts with status 1 and
no report; a readable pair of snapshots exits 0 with the report. -/
theorem main_exit_and_report_witness :
    main_run (fun _ => .error "FileNotFoundError") "old.txt" "new.txt" =
      ⟨1, [error_message "old.txt" "FileNotFoundError"], none⟩ ∧
    main_run (fun _ => .ok ["h1", "h2", "[   1.0 KB] root"]) "old.txt" "new.txt" =
      ⟨0, ["✨ 差分解析が完了しました！",
          "📄 出力結果: " ++ output_name "old.txt" "new.txt"],
        some (output_name "old.txt" "new.txt",
          render_report "old.txt" "new.txt"
            (computeDiff [("root", 1024)] [("root", 1024)]))⟩ :=
  ⟨(main_exit_and_report (fun _ => .error "FileNotFoundError") "old.txt" "new.txt").1
      "FileNotFoundError" rfl,
    (main_exit_and_report (fun _ => .ok ["h1", "h2", "[   1.0 KB] root"])
      "old.txt" "new.txt").2.2 [("root", 1024)] [("root", 1024)] rfl rfl⟩

/-- Sanity check: the end-to-end example of the specification.  The old
snapshot holds `root` (1 KB) with `child` (512 B) below it; the new one
is identical except `child` grew to 1 KB; the diff is a single change
record `("root/child", +512, 1024)`. -/
theorem spec_end_to_end_example :
    load_snapshot ["h1", "h2", "[   1.0 KB] root", "[ 512.0 B ]     child"] =
      .ok [("root", 1024), ("root/child", 512)] ∧
    load_snapshot ["h1", "h2", "[   1.0 KB] root", "[   1.0 KB]     child"] =
      .ok [("root", 1024), ("root/child", 1024)] ∧
    computeDiff [("root", 1024), ("root/child", 512)]
        [("root", 1024), ("root/child", 1024)] =
      ⟨[], [], [("root/child", 512, 1024)]⟩ :=
  ⟨rfl, rfl, rfl⟩

/-- Sanity check: all three glyph prefixes place a child below the
preceding root-level entry, and blank lines are skipped. -/
theorem parser_glyph_examples :
    load_snapshot ["h1", "h2", "[   1.0 KB] root", "[ 512.0 B ] ├── child"] =
      .ok [("root", 1024), ("root/child", 512)] ∧
    load_snapshot ["h1", "h2", "[   1.0 KB] root", "[ 512.0 B ] └── child"] =
      .ok [("root", 1024), ("root/child", 512)] ∧
    load_snapshot ["h1", "h2", "[   1.0 KB] root", "", "[ 512.0 B ] │   x"] =
      .ok [("root", 1024), ("root/x", 512)] :=
  ⟨rfl, rfl, rfl⟩

/-- Sanity check: concrete values of the size decoder and the byte
formatter. -/
theorem size_decode_format_examples :
    parse_size_to_bytes "[   1.0 KB] " = .ok 1024 ∧
    parse_size_to_bytes " 512.0 B    " = .ok 512 ∧
    parse_size_to_bytes "            " = .ok 0 ∧
    parse_size_to_bytes "  10.5 MB   " = .ok 11010048 ∧
    format_bytes 512 = "+512.0 B" ∧
    format_bytes 1536 = "+1.5 KB" ∧
    format_bytes (-512) = "-512.0 B" ∧
    format_bytes 11010048 = "+10.5 MB" ∧
    format_bytes 1075 = "+1.0 KB" :=
  ⟨rfl, rfl, rfl, rfl, rfl, rfl, rfl, rfl, rfl⟩

end FileTreeDiff
